import Mathlib

/-!
Shallow embedding of the cursor-based pagination core of a FastAPI CRUD
backend: the relational paginator (`src/utils/paginations/postgres.py`),
the document-store paginator (`src/utils/paginations/mongo.py`) and the
identifier codec (`src/utils/helpers/pagination.py`), together with
theorems settling the specification claims about them.

Modelling conventions:
* A relational row is represented by its integer identifier (`Int`); a base
  filtered query is the list of identifiers of the rows it matches.
* `order_by(model.id.desc())` / `.asc()` become sorting the list with
  insertion sort; `.limit(n)` becomes `List.take n`; `.scalar()` becomes
  `List.head?` of the executed (ordered) query.
* Opaque cursor tokens are represented by the identifier they encode: the
  identifier codec is modelled separately (`encode_id` / `decode_id`) and
  proven lossless, so carrying the payload is faithful.  Paginator entry
  points receive the already-decoded cursor value, mirroring the fact that
  the Python methods first run `decode_id` on their stored token.
* Document-store documents are represented by their `_id` (`Nat`); the
  caller-supplied filter mapping is a record holding the optional `_id`
  bound plus the remaining field constraints as a predicate.
-/

/-- `order_by(model.id.desc())`: the query's rows sorted by identifier
descending. -/
def sortDesc (q : List Int) : List Int :=
  List.insertionSort (fun a b : Int => b ≤ a) q

/-- `order_by(model.id.asc())`: the query's rows sorted by identifier
ascending. -/
def sortAsc (q : List Int) : List Int :=
  List.insertionSort (fun a b : Int => a ≤ b) q

/-- `get_count` from `src/utils/helpers/pagination.py`: rewrites the query
to `count(model.id)` and returns the scalar, i.e. the number of matching
rows. -/
def get_count (q : List Int) : Nat :=
  q.length

/-- `DBPaginator._set_previous_cursor`: if the page is non-empty, execute
the base query ordered by id descending and take its scalar (= first row);
if that row's id differs from the page's first element (last element when
`is_reversed`), the previous cursor is the encoded first element. -/
def set_previous_cursor (query result : List Int) (is_reversed : Bool) :
    Option Int :=
  if 0 < result.length then
    match (sortDesc query).head?,
        (if is_reversed then result.getLast? else result.head?) with
    | some first_id, some first =>
        if first_id ≠ first then some first else none
    | _, _ => none
  else
    none

/-- `DBPaginator._set_next_cursor`: only when the page is exactly full,
execute the base query ordered by id ascending and take its scalar
(= first row); if that row's id differs from the page's last element
(first element when `is_reversed`), the next cursor is the encoded last
element.

Modelling caveat: in the source, `last = result[-1].id` runs before the
truthiness guard, so at `limit = 0` with an empty page Python raises
IndexError; an `Option Int` result cannot carry that error path, and
this model returns `none` there instead.  The definition is exact at
every positive limit, and theorems about it either assume a positive
limit or do not depend on the `limit = 0` behaviour. -/
def set_next_cursor (query : List Int) (limit : Nat) (result : List Int)
    (is_reversed : Bool) : Option Int :=
  if result.length = limit then
    match (sortAsc query).head?,
        (if is_reversed then result.head? else result.getLast?) with
    | some last_id, some last =>
        if last_id ≠ last then some last else none
    | _, _ => none
  else
    none

/-- `DBPaginator.get_first`: first page, ordered by id descending, limited
to `limit`; previous cursor absent, next cursor via the shared helper. -/
def get_first (query : List Int) (limit : Nat) :
    List Int × Option Int × Option Int :=
  let results := (sortDesc query).take limit
  (results, none, set_next_cursor query limit results false)

/-- `DBPaginator.get_next`: rows with id strictly below the decoded
cursor, ordered descending, limited; boundary cursors via the shared
helpers with `is_reversed = False`. -/
def get_next (query : List Int) (limit : Nat) (cursor : Int) :
    List Int × Option Int × Option Int :=
  let results := (sortDesc (query.filter (fun x => decide (x < cursor)))).take limit
  (results, set_previous_cursor query results false,
    set_next_cursor query limit results false)

/-- `DBPaginator.get_previous`: if the total count under the base filter
is below the page size, delegate to `get_first`; otherwise rows with id
strictly above the decoded cursor, ordered ascending, limited; boundary
cursors via the shared helpers with `is_reversed = True`. -/
def get_previous (query : List Int) (limit : Nat) (cursor : Int) :
    List Int × Option Int × Option Int :=
  if get_count query < limit then
    get_first query limit
  else
    let results := (sortAsc (query.filter (fun x => decide (cursor < x)))).take limit
    (results, set_previous_cursor query results true,
      set_next_cursor query limit results true)

/-- Repeated forward traversal: pages obtained by following `next_cursor`
through `get_next`, with explicit fuel (the chain is later proven to stop
on its own before `query.length` steps). -/
def chainFrom (query : List Int) (limit : Nat) (cur : Option Int)
    (fuel : Nat) : List (List Int) :=
  match cur, fuel with
  | none, _ => []
  | some _, 0 => []
  | some c, fuel0 + 1 =>
    let step := get_next query limit c
    step.1 :: chainFrom query limit step.2.2 fuel0

/-- All pages visited starting from `get_first` and following
`next_cursor` via `get_next`. -/
def chain (query : List Int) (limit : Nat) : List (List Int) :=
  let first := get_first query limit
  first.1 :: chainFrom query limit first.2.2 query.length

/-- The `next_cursor` reached after `k + 1` pages of forward traversal
(`k = 0` is the cursor returned by `get_first`). -/
def nextCursorIter (query : List Int) (limit : Nat) : Nat → Option Int
  | 0 => (get_first query limit).2.2
  | k + 1 =>
    match nextCursorIter query limit k with
    | none => none
    | some c => (get_next query limit c).2.2

/-!
### Identifier codec (`src/utils/helpers/pagination.py`)

`encode_id` is `f.encrypt(str(identifier).encode()).decode()` and
`decode_id` is `int(f.decrypt(token.encode()).decode())`, where `f` is a
Fernet authenticated-encryption object from the external `cryptography`
library.  The repository's own contribution is the decimal
stringification/parsing around the cipher; the cipher itself is an
external collaborator (spec section 6: an authenticated encryption
primitive "raising on authentication failure"), so the theorems take the
cipher as a parameter together with the properties that interface
guarantees.

A plaintext payload (`str(i).encode()` / the decrypted bytes) is modelled
as a sign flag (the optional leading `-`) plus the list of decimal digit
values; a ciphertext token is a byte string, modelled as `List Nat`.
-/

/-- The decimal digits of a natural number, most significant first
(`str(n)` for `n ≥ 0`). -/
def natToDigits (n : Nat) : List Nat :=
  if n < 10 then [n]
  else natToDigits (n / 10) ++ [n % 10]
termination_by n
decreasing_by
  exact Nat.div_lt_self (by omega) (by omega)

/-- Reading a most-significant-first decimal digit list back into a
natural number. -/
def digitsToNat (ds : List Nat) : Nat :=
  ds.foldl (fun a d => 10 * a + d) 0

/-- `str(identifier).encode()`: the sign flag (`True` iff the literal
starts with `-`) and the decimal digits of the absolute value. -/
def pyStr (i : Int) : Bool × List Nat :=
  (decide (i < 0), natToDigits i.natAbs)

/-- `int(payload)`: succeeds exactly on well-formed decimal integer
literals (a non-empty digit string, each digit below ten, with an
optional leading sign), returning the signed value. -/
def pyIntParse (s : Bool × List Nat) : Option Int :=
  if s.2 ≠ [] ∧ ∀ d ∈ s.2, d < 10 then
    some ((if s.1 then -1 else 1) * (digitsToNat s.2 : Int))
  else
    none

/-- The `InvalidCursor` failure condition of the spec's error taxonomy:
the token is malformed, fails authentication, or decrypts to a payload
that is not a valid integer literal. -/
inductive CursorError
  | invalidCursor
deriving DecidableEq

/-- `encode_id`: stringify the identifier and encrypt it with the
supplied cipher. -/
def encode_id (enc : Bool × List Nat → List Nat) (i : Int) : List Nat :=
  enc (pyStr i)

/-- `decode_id`: decrypt the token with the supplied cipher (failure of
the authenticated decryption surfaces as `InvalidCursor`), then parse the
payload as an integer literal (parse failure also surfaces as
`InvalidCursor`). -/
def decode_id (dec : List Nat → Option (Bool × List Nat)) (t : List Nat) :
    Except CursorError Int :=
  match dec t with
  | none => Except.error CursorError.invalidCursor
  | some s =>
    match pyIntParse s with
    | none => Except.error CursorError.invalidCursor
    | some i => Except.ok i

/-- A concrete cipher satisfying the authenticated-encryption interface,
used to instantiate the codec theorems: the sign flag becomes a leading
tag byte (`0`/`1`) and any token whose tag byte is neither is rejected. -/
def tagEnc (m : Bool × List Nat) : List Nat :=
  (if m.1 then 1 else 0) :: m.2

/-- Decryption side of `tagEnc`. -/
def tagDec : List Nat → Option (Bool × List Nat)
  | 0 :: r => some (false, r)
  | 1 :: r => some (true, r)
  | _ => none

/-!
### Document-store paginator (`src/utils/paginations/mongo.py`)

Documents are represented by their `_id`.  The caller-supplied filter
mapping is a record: `idBound` is the value stored under the `'_id'` key
(absent or a strict `$lt`/`$gt` bound) and `base` is the conjunction of
the remaining field constraints, as a predicate on documents.
`MongoPaginator.__init__` stores the caller's mapping itself
(`self.query = query`), so the mapping returned by `get_page` below is
the caller's mapping as it stands after the call.  `self.sort` is fixed
to `-1` by the constructor, so `find(...).sort('_id', -1)` always orders
descending.
-/

/-- The value stored under the `'_id'` key of the filter mapping. -/
inductive IdBound
  | lt (c : Nat)
  | gt (c : Nat)
deriving DecidableEq

/-- The caller-supplied filter mapping. -/
structure MongoQuery where
  idBound : Option IdBound
  base : Nat → Bool

/-- Whether a document matches the filter mapping. -/
def mongoMatches (qr : MongoQuery) (d : Nat) : Bool :=
  qr.base d &&
    (match qr.idBound with
     | none => true
     | some (IdBound.lt c) => decide (d < c)
     | some (IdBound.gt c) => decide (c < d))

/-- `sort('_id', -1)` over the collection. -/
def sortDescN (coll : List Nat) : List Nat :=
  List.insertionSort (fun a b : Nat => b ≤ a) coll

/-- Mongo `limit(n)`: `limit(0)` means no limit. -/
def mongoLimit (l : List Nat) (n : Nat) : List Nat :=
  if n = 0 then l else l.take n

/-- `MongoPaginator.has_next`: `find_one({'_id': {'$lt': last_item}})` on
the collection — note: on the whole collection, without the filter
mapping. -/
def has_next (coll : List Nat) (last_item : Nat) : Bool :=
  (coll.find? (fun d => decide (d < last_item))).isSome

/-- `MongoPaginator.has_previous`: `find_one({'_id': {'$gt':
first_item}})` on the collection — again without the filter mapping. -/
def has_previous (coll : List Nat) (first_item : Nat) : Bool :=
  (coll.find? (fun d => decide (first_item < d))).isSome

/-- The observable outcome of `MongoPaginator.get_page`: the returned
documents, the caller's filter mapping after the call, and the two
side-set cursors. -/
structure MongoPage where
  results : List Nat
  query : MongoQuery
  previous_cursor : Option Nat
  next_cursor : Option Nat

/-- The cursor-application step at the top of `get_page`: when a cursor
is present, the `'_id'` key of the filter mapping is overwritten with
`{'$lt': cursor}` (forward) or `{'$gt': cursor}` (backward). -/
def apply_cursor (query : MongoQuery) (cursor : Option Nat)
    (forward : Bool) : MongoQuery :=
  match cursor with
  | some c =>
      MongoQuery.mk (some (if forward then IdBound.lt c else IdBound.gt c))
        query.base
  | none => query

/-- The fetch-and-probe part of `get_page`, after the cursor has been
written into the filter mapping: fetch the matching documents sorted by
`_id` descending and limited; if the page is non-empty, set
`previous_cursor` to the first document when `has_previous` holds, and —
only when the page is not short of `limit` — set `next_cursor` to the
last document when `has_next` holds; an empty page clears both. -/
def mongo_fetch (coll : List Nat) (query1 : MongoQuery) (limit : Nat) :
    MongoPage :=
  let results :=
    mongoLimit ((sortDescN coll).filter (fun d => mongoMatches query1 d)) limit
  if h : results = [] then
    MongoPage.mk results query1 none none
  else
    MongoPage.mk results query1
      (if has_previous coll (results.head h) then some (results.head h)
       else none)
      (if results.length < limit then none
       else if has_next coll (results.getLast h) then
         some (results.getLast h)
       else none)

/-- `MongoPaginator.get_page`: apply the cursor bound to the caller's
filter mapping, then fetch and probe. -/
def get_page (coll : List Nat) (query : MongoQuery) (limit : Nat)
    (cursor : Option Nat) (forward : Bool) : MongoPage :=
  mongo_fetch coll (apply_cursor query cursor forward) limit

/-!
### Spec-side boundary-cursor definitions

Claim C1 states that `_set_previous_cursor` compares the page edge
against "the smallest-identifier row matching the base filter" and that
`_set_next_cursor` compares against "the largest-identifier row".  The
two definitions below follow those words of the claim; they exist to be
compared with `set_previous_cursor` / `set_next_cursor`, which are
translated from the source. -/

/-- The previous-cursor computation as claim C1 words it: the global
extreme probed is the smallest identifier matching the base filter. -/
def set_previous_cursor_claim (query result : List Int)
    (is_reversed : Bool) : Option Int :=
  if 0 < result.length then
    match query.min?,
        (if is_reversed then result.getLast? else result.head?) with
    | some extreme, some first =>
        if extreme ≠ first then some first else none
    | _, _ => none
  else
    none

/-- The next-cursor computation as claim C1 words it: the global extreme
probed is the largest identifier matching the base filter. -/
def set_next_cursor_claim (query : List Int) (limit : Nat)
    (result : List Int) (is_reversed : Bool) : Option Int :=
  if result.length = limit then
    match query.max?,
        (if is_reversed then result.head? else result.getLast?) with
    | some extreme, some last =>
        if extreme ≠ last then some last else none
    | _, _ => none
  else
    none

/-- The 25-row scenario dataset of claims C3: identifiers 1..25. -/
def ds25 : List Int :=
  (List.range' 1 25).map (fun n => (n : Int))

/-! ### Lemmas about the ordering helpers -/

lemma sortDesc_perm (q : List Int) : (sortDesc q).Perm q :=
  List.perm_insertionSort _ q

lemma sortAsc_perm (q : List Int) : (sortAsc q).Perm q :=
  List.perm_insertionSort _ q

lemma sortDesc_sorted (q : List Int) :
    List.Pairwise (fun a b : Int => b ≤ a) (sortDesc q) :=
  List.sorted_insertionSort _ q

lemma sortAsc_sorted (q : List Int) :
    List.Pairwise (fun a b : Int => a ≤ b) (sortAsc q) :=
  List.sorted_insertionSort _ q

lemma sortAsc_eq_reverse_sortDesc (q : List Int) :
    sortAsc q = (sortDesc q).reverse := by
  refine List.eq_of_perm_of_sorted (r := fun a b : Int => a ≤ b) ?_ ?_ ?_
  · exact (sortAsc_perm q).trans ((sortDesc_perm q).symm.trans
      (List.reverse_perm _).symm)
  · exact sortAsc_sorted q
  · exact List.pairwise_reverse.2 (sortDesc_sorted q)

lemma sortDesc_filter (q : List Int) (p : Int → Bool) :
    sortDesc (q.filter p) = (sortDesc q).filter p := by
  refine List.eq_of_perm_of_sorted (r := fun a b : Int => b ≤ a) ?_ ?_ ?_
  · exact (sortDesc_perm _).trans (List.Perm.filter p (sortDesc_perm q)).symm
  · exact sortDesc_sorted _
  · exact (sortDesc_sorted q).filter p

lemma sortDesc_strict (q : List Int) (hnodup : q.Nodup) :
    List.Pairwise (fun a b : Int => b < a) (sortDesc q) := by
  have h1 : List.Pairwise (fun a b : Int => b ≤ a) (sortDesc q) :=
    sortDesc_sorted q
  have h2 : List.Pairwise (fun a b : Int => a ≠ b) (sortDesc q) :=
    (sortDesc_perm q).symm.nodup hnodup
  exact (h1.and h2).imp (fun hab => lt_of_le_of_ne hab.1 (Ne.symm hab.2))

lemma head?_sortDesc_eq_some_iff (q : List Int) (m : Int) :
    (sortDesc q).head? = some m ↔ m ∈ q ∧ ∀ x ∈ q, x ≤ m := by
  constructor
  · intro h
    have hs := sortDesc_sorted q
    cases hq : sortDesc q with
    | nil => rw [hq] at h; cases h
    | cons a rest =>
      rw [hq] at h hs
      have ham : a = m := by simpa using h
      subst ham
      refine ⟨(sortDesc_perm q).mem_iff.1 (by rw [hq]; exact List.mem_cons_self a rest), ?_⟩
      intro x hx
      have hx2 : x ∈ a :: rest := by
        rw [← hq]; exact (sortDesc_perm q).mem_iff.2 hx
      rcases List.mem_cons.1 hx2 with hxa | hxr
      · exact le_of_eq hxa
      · exact (List.sorted_cons.1 hs).1 x hxr
  · rintro ⟨hm, hmax⟩
    cases hq : sortDesc q with
    | nil =>
      exfalso
      have : q = [] := List.perm_nil.1 ((hq ▸ (sortDesc_perm q)).symm)
      simp [this] at hm
    | cons a rest =>
      have ha : a ∈ q := (sortDesc_perm q).mem_iff.1 (by rw [hq]; exact List.mem_cons_self a rest)
      have h1 : a ≤ m := hmax a ha
      have h2 : m ≤ a := by
        have hm2 : m ∈ a :: rest := by
          rw [← hq]; exact (sortDesc_perm q).mem_iff.2 hm
        rcases List.mem_cons.1 hm2 with hma | hmr
        · exact le_of_eq hma
        · have hs := sortDesc_sorted q
          rw [hq] at hs
          exact (List.sorted_cons.1 hs).1 m hmr
      simp [le_antisymm h1 h2]

lemma head?_sortAsc_eq_some_iff (q : List Int) (m : Int) :
    (sortAsc q).head? = some m ↔ m ∈ q ∧ ∀ x ∈ q, m ≤ x := by
  constructor
  · intro h
    have hs := sortAsc_sorted q
    cases hq : sortAsc q with
    | nil => rw [hq] at h; cases h
    | cons a rest =>
      rw [hq] at h hs
      have ham : a = m := by simpa using h
      subst ham
      refine ⟨(sortAsc_perm q).mem_iff.1 (by rw [hq]; exact List.mem_cons_self a rest), ?_⟩
      intro x hx
      have hx2 : x ∈ a :: rest := by
        rw [← hq]; exact (sortAsc_perm q).mem_iff.2 hx
      rcases List.mem_cons.1 hx2 with hxa | hxr
      · exact le_of_eq hxa.symm
      · exact (List.sorted_cons.1 hs).1 x hxr
  · rintro ⟨hm, hmin⟩
    cases hq : sortAsc q with
    | nil =>
      exfalso
      have : q = [] := List.perm_nil.1 ((hq ▸ (sortAsc_perm q)).symm)
      simp [this] at hm
    | cons a rest =>
      have ha : a ∈ q := (sortAsc_perm q).mem_iff.1 (by rw [hq]; exact List.mem_cons_self a rest)
      have h1 : m ≤ a := hmin a ha
      have h2 : a ≤ m := by
        have hm2 : m ∈ a :: rest := by
          rw [← hq]; exact (sortAsc_perm q).mem_iff.2 hm
        rcases List.mem_cons.1 hm2 with hma | hmr
        · exact le_of_eq hma.symm
        · have hs := sortAsc_sorted q
          rw [hq] at hs
          exact (List.sorted_cons.1 hs).1 m hmr
      simp [le_antisymm h2 h1]

lemma getLast_le_mem : ∀ (p : List Int),
    List.Pairwise (fun a b : Int => b < a) p →
    ∀ t, p.getLast? = some t → ∀ x ∈ p, t ≤ x := by
  intro p
  induction p with
  | nil =>
    intro _ t ht
    cases ht
  | cons a rest ih =>
    intro hp t ht x hx
    cases hr : rest with
    | nil =>
      subst hr
      rw [List.getLast?_singleton] at ht
      have ht2 : a = t := by simpa using ht
      have hx2 : x = a := by simpa using hx
      simp [ht2, hx2]
    | cons b r2 =>
      subst hr
      rw [List.getLast?_cons_cons] at ht
      have hcons := List.pairwise_cons.1 hp
      have hrest := ih hcons.2 t ht
      rcases List.mem_cons.1 hx with hxa | hxr
      · have htmem : t ∈ b :: r2 := by
          have hne : (b :: r2) ≠ [] := List.cons_ne_nil b r2
          rw [List.getLast?_eq_getLast _ hne] at ht
          have : (b :: r2).getLast hne = t := by simpa using ht
          rw [← this]
          exact List.getLast_mem hne
        have : t < a := hcons.1 t htmem
        rw [hxa]
        exact le_of_lt this
      · exact hrest x hxr

/-! ### The forward-traversal invariant -/

lemma get_next_fst (q : List Int) (limit : Nat) (c : Int) (r : List Int)
    (hc : (sortDesc q).filter (fun x => decide (x < c)) = r) :
    (get_next q limit c).1 = r.take limit := by
  unfold get_next
  rw [sortDesc_filter, hc]

lemma get_next_nextcur (q : List Int) (limit : Nat) (c : Int) (r : List Int)
    (hc : (sortDesc q).filter (fun x => decide (x < c)) = r) :
    (get_next q limit c).2.2 = set_next_cursor q limit (r.take limit) false := by
  unfold get_next
  rw [sortDesc_filter, hc]

lemma set_next_cursor_full_none (q : List Int) (limit : Nat)
    (pre r : List Int) (hl : sortDesc q = pre ++ r) (hr : r ≠ [])
    (hlen : r.length ≤ limit) :
    set_next_cursor q limit (r.take limit) false = none := by
  rw [List.take_of_length_le hlen]
  unfold set_next_cursor
  by_cases hcase : r.length = limit
  · rw [if_pos hcase]
    have h1 : (sortAsc q).head? = r.getLast? := by
      rw [sortAsc_eq_reverse_sortDesc, List.head?_reverse, hl,
        List.getLast?_append, List.getLast?_eq_getLast r hr]
      rfl
    rw [h1, List.getLast?_eq_getLast r hr]
    simp
  · rw [if_neg hcase]

lemma set_next_cursor_step (q : List Int) (limit : Nat) (pre r : List Int)
    (hnodup : q.Nodup) (hl : sortDesc q = pre ++ r) (_hr : r ≠ [])
    (hlim : 1 ≤ limit) (hlt : limit < r.length) :
    ∃ t, (r.take limit).getLast? = some t ∧
      set_next_cursor q limit (r.take limit) false = some t ∧
      (sortDesc q).filter (fun x => decide (x < t)) = r.drop limit ∧
      r.drop limit ≠ [] := by
  have hplen : (r.take limit).length = limit := by
    simp [List.length_take]
    omega
  have hpne : (r.take limit) ≠ [] :=
    List.ne_nil_of_length_pos (by omega)
  set p := r.take limit with hp
  set t := p.getLast hpne with htdef
  have ht : p.getLast? = some t := List.getLast?_eq_getLast p hpne
  have htmem : t ∈ p := List.getLast_mem hpne
  have hdne : r.drop limit ≠ [] := by
    rw [Ne, List.drop_eq_nil_iff]
    omega
  have hl2 : sortDesc q = (pre ++ p) ++ r.drop limit := by
    rw [hl, List.append_assoc, hp, List.take_append_drop]
  have hstrict : List.Pairwise (fun a b : Int => b < a) (sortDesc q) :=
    sortDesc_strict q hnodup
  have hstrict2 := hl2 ▸ hstrict
  rcases List.pairwise_append.1 hstrict2 with ⟨hpp, _, hcross⟩
  have hp_pair : List.Pairwise (fun a b : Int => b < a) p :=
    (List.pairwise_append.1 hpp).2.1
  have htmem_pp : t ∈ pre ++ p := List.mem_append_right _ htmem
  have hbelow : ∀ b ∈ r.drop limit, b < t := fun b hb => hcross t htmem_pp b hb
  have hgeq : (sortAsc q).head? = some ((r.drop limit).getLast hdne) := by
    rw [sortAsc_eq_reverse_sortDesc, List.head?_reverse, hl2,
      List.getLast?_append, List.getLast?_eq_getLast _ hdne]
    rfl
  set g := (r.drop limit).getLast hdne with hgdef
  have hgmem : g ∈ r.drop limit := List.getLast_mem hdne
  have hgt : g ≠ t := ne_of_lt (hbelow g hgmem)
  have hset : set_next_cursor q limit p false = some t := by
    unfold set_next_cursor
    rw [if_pos hplen]
    have hscrut : (if false then p.head? else p.getLast?) = some t := by
      simpa using ht
    rw [hgeq, hscrut]
    show (if g ≠ t then some t else none) = some t
    rw [if_pos hgt]
  have hfil : (sortDesc q).filter (fun x => decide (x < t)) = r.drop limit := by
    rw [hl2, List.filter_append]
    have h1 : (pre ++ p).filter (fun x => decide (x < t)) = [] := by
      rw [List.filter_eq_nil_iff]
      intro a ha
      rcases List.mem_append.1 ha with hap | hain
      · -- a comes before the page: a is above everything in r, notably t
        have htr : t ∈ r := by
          have : t ∈ p := htmem
          exact (List.take_sublist limit r).subset (hp ▸ this)
        have := (List.pairwise_append.1 (hl ▸ hstrict)).2.2 a hap t htr
        simp only [decide_eq_true_eq]
        omega
      · -- a is in the page: the page's last element is its minimum
        have := getLast_le_mem p hp_pair t ht a hain
        simp only [decide_eq_true_eq]
        omega
    have h2 : (r.drop limit).filter (fun x => decide (x < t)) = r.drop limit := by
      rw [List.filter_eq_self]
      intro a ha
      simpa using hbelow a ha
    rw [h1, h2, List.nil_append]
  exact ⟨t, ht, hset, hfil, hdne⟩

lemma chainFrom_none (q : List Int) (limit : Nat) (fuel : Nat) :
    chainFrom q limit none fuel = [] := by
  cases fuel <;> rfl

lemma chainFrom_flatten (q : List Int) (limit : Nat) (hnodup : q.Nodup)
    (hlim : 1 ≤ limit) :
    ∀ (fuel : Nat) (pre r : List Int) (c : Int),
      sortDesc q = pre ++ r → r ≠ [] →
      (sortDesc q).filter (fun x => decide (x < c)) = r →
      r.length ≤ fuel →
      (chainFrom q limit (some c) fuel).flatten = r := by
  intro fuel
  induction fuel with
  | zero =>
    intro pre r c hl hr hc hf
    exact absurd (List.eq_nil_of_length_eq_zero (Nat.le_zero.1 hf)) hr
  | succ fuel0 ih =>
    intro pre r c hl hr hc hf
    show ((get_next q limit c).1 ::
      chainFrom q limit (get_next q limit c).2.2 fuel0).flatten = r
    rw [List.flatten_cons, get_next_fst q limit c r hc,
      get_next_nextcur q limit c r hc]
    by_cases hcase : limit < r.length
    · obtain ⟨t, _, hset, hfil, hdne⟩ :=
        set_next_cursor_step q limit pre r hnodup hl hr hlim hcase
      rw [hset]
      have hl2 : sortDesc q = (pre ++ r.take limit) ++ r.drop limit := by
        rw [hl, List.append_assoc, List.take_append_drop]
      have hf2 : (r.drop limit).length ≤ fuel0 := by
        rw [List.length_drop]
        omega
      rw [ih (pre ++ r.take limit) (r.drop limit) t hl2 hdne hfil hf2]
      exact List.take_append_drop limit r
    · rw [set_next_cursor_full_none q limit pre r hl hr (le_of_not_lt hcase),
        chainFrom_none, List.flatten_nil, List.append_nil]
      exact List.take_of_length_le (le_of_not_lt hcase)

lemma get_first_fst (q : List Int) (limit : Nat) :
    (get_first q limit).1 = (sortDesc q).take limit := rfl

lemma get_first_nextcur (q : List Int) (limit : Nat) :
    (get_first q limit).2.2 =
      set_next_cursor q limit ((sortDesc q).take limit) false := rfl

lemma set_next_cursor_nil_none (q : List Int) (limit : Nat)
    (hlim : 1 ≤ limit) :
    set_next_cursor q limit ([] : List Int) false = none := by
  unfold set_next_cursor
  rw [if_neg]
  simp
  omega

lemma chain_flatten (q : List Int) (limit : Nat) (hnodup : q.Nodup)
    (hlim : 1 ≤ limit) :
    (chain q limit).flatten = sortDesc q := by
  show ((get_first q limit).1 ::
    chainFrom q limit (get_first q limit).2.2 q.length).flatten = sortDesc q
  rw [List.flatten_cons, get_first_fst, get_first_nextcur]
  by_cases hnil : sortDesc q = []
  · rw [hnil]
    show ([] : List Int).take limit ++
      (chainFrom q limit
        (set_next_cursor q limit (([] : List Int).take limit) false)
        q.length).flatten = []
    rw [List.take_nil, set_next_cursor_nil_none q limit hlim, chainFrom_none]
    rfl
  · have hl : sortDesc q = [] ++ sortDesc q := (List.nil_append _).symm
    by_cases hcase : limit < (sortDesc q).length
    · obtain ⟨t, _, hset, hfil, hdne⟩ :=
        set_next_cursor_step q limit [] (sortDesc q) hnodup hl hnil hlim hcase
      rw [hset]
      have hl2 : sortDesc q =
          ((sortDesc q).take limit) ++ (sortDesc q).drop limit :=
        (List.take_append_drop _ _).symm
      have hf2 : ((sortDesc q).drop limit).length ≤ q.length := by
        rw [List.length_drop, (sortDesc_perm q).length_eq]
        omega
      rw [chainFrom_flatten q limit hnodup hlim q.length
        ((sortDesc q).take limit) ((sortDesc q).drop limit) t hl2 hdne hfil hf2]
      exact List.take_append_drop limit (sortDesc q)
    · rw [set_next_cursor_full_none q limit [] (sortDesc q) hl hnil
        (le_of_not_lt hcase), chainFrom_none, List.flatten_nil, List.append_nil]
      exact List.take_of_length_le (le_of_not_lt hcase)

lemma nextCursorIter_inv (q : List Int) (limit : Nat) (hnodup : q.Nodup)
    (hlim : 1 ≤ limit) :
    ∀ (j : Nat) (c : Int), nextCursorIter q limit j = some c →
      ∃ pre r, sortDesc q = pre ++ r ∧ r ≠ [] ∧
        (sortDesc q).filter (fun x => decide (x < c)) = r ∧
        limit * (j + 1) ≤ pre.length := by
  intro j
  induction j with
  | zero =>
    intro c hc
    have hc2 : set_next_cursor q limit ((sortDesc q).take limit) false =
        some c := hc
    by_cases hnil : sortDesc q = []
    · rw [hnil] at hc2
      rw [show (([] : List Int).take limit) = ([] : List Int) from
        List.take_nil, set_next_cursor_nil_none q limit hlim] at hc2
      cases hc2
    · by_cases hcase : limit < (sortDesc q).length
      · obtain ⟨t, _, hset, hfil, hdne⟩ :=
          set_next_cursor_step q limit [] (sortDesc q) hnodup
            ((List.nil_append _).symm) hnil hlim hcase
        rw [hset] at hc2
        have htc : t = c := by injection hc2
        subst htc
        refine ⟨(sortDesc q).take limit, (sortDesc q).drop limit,
          (List.take_append_drop _ _).symm, hdne, hfil, ?_⟩
        rw [List.length_take]
        simp
        omega
      · rw [set_next_cursor_full_none q limit [] (sortDesc q)
          ((List.nil_append _).symm) hnil (le_of_not_lt hcase)] at hc2
        cases hc2
  | succ j0 ih =>
    intro c hc
    cases hprev : nextCursorIter q limit j0 with
    | none =>
      rw [nextCursorIter, hprev] at hc
      cases hc
    | some c0 =>
      rw [nextCursorIter, hprev] at hc
      have hc2 : (get_next q limit c0).2.2 = some c := hc
      obtain ⟨pre, r, hl, hr, hcfil, hplen⟩ := ih c0 hprev
      rw [get_next_nextcur q limit c0 r hcfil] at hc2
      by_cases hcase : limit < r.length
      · obtain ⟨t, _, hset, hfil, hdne⟩ :=
          set_next_cursor_step q limit pre r hnodup hl hr hlim hcase
        rw [hset] at hc2
        have htc : t = c := by injection hc2
        subst htc
        refine ⟨pre ++ r.take limit, r.drop limit,
          by rw [hl, List.append_assoc, List.take_append_drop], hdne, hfil, ?_⟩
        rw [List.length_append, List.length_take]
        have hmul : limit * (j0 + 1 + 1) = limit * (j0 + 1) + limit :=
          Nat.mul_succ limit (j0 + 1)
        rw [hmul]
        simp
        omega
      · rw [set_next_cursor_full_none q limit pre r hl hr
          (le_of_not_lt hcase)] at hc2
        cases hc2

lemma digitsToNat_append_single (l : List Nat) (d : Nat) :
    digitsToNat (l ++ [d]) = 10 * digitsToNat l + d := by
  unfold digitsToNat
  rw [List.foldl_append]
  rfl

lemma digitsToNat_natToDigits : ∀ n, digitsToNat (natToDigits n) = n := by
  intro n
  induction n using Nat.strong_induction_on with
  | _ n ih =>
    rw [natToDigits]
    split_ifs with h
    · simp [digitsToNat]
    · rw [digitsToNat_append_single, ih (n / 10) (Nat.div_lt_self (by omega) (by omega))]
      omega

lemma natToDigits_ne_nil (n : Nat) : natToDigits n ≠ [] := by
  rw [natToDigits]
  split_ifs with h
  · simp
  · simp

lemma natToDigits_lt_ten : ∀ n, ∀ d ∈ natToDigits n, d < 10 := by
  intro n
  induction n using Nat.strong_induction_on with
  | _ n ih =>
    intro d hd
    rw [natToDigits] at hd
    split_ifs at hd with h
    · simp at hd
      omega
    · rcases List.mem_append.1 hd with h1 | h2
      · exact ih (n / 10) (Nat.div_lt_self (by omega) (by omega)) d h1
      · simp at h2
        omega

lemma pyIntParse_pyStr (i : Int) : pyIntParse (pyStr i) = some i := by
  have hcond : (pyStr i).2 ≠ [] ∧ ∀ d ∈ (pyStr i).2, d < 10 :=
    ⟨natToDigits_ne_nil _, natToDigits_lt_ten _⟩
  unfold pyIntParse
  rw [if_pos hcond]
  have h2 : (pyStr i).2 = natToDigits i.natAbs := rfl
  have h1 : (pyStr i).1 = decide (i < 0) := rfl
  rw [h1, h2, digitsToNat_natToDigits]
  simp only [Option.some.injEq]
  by_cases h : i < 0
  · rw [if_pos (decide_eq_true h)]
    omega
  · rw [if_neg (by simp [h])]
    omega

lemma tagDec_tagEnc : ∀ m, tagDec (tagEnc m) = some m := by
  intro m
  obtain ⟨b, ds⟩ := m
  cases b <;> rfl

lemma nextCursorIter_terminates (q : List Int) (limit : Nat)
    (hnodup : q.Nodup) (hlim : 1 ≤ limit) :
    nextCursorIter q limit q.length = none := by
  cases h : nextCursorIter q limit q.length with
  | none => rfl
  | some c =>
    exfalso
    obtain ⟨pre, r, hl, hr, _, hplen⟩ :=
      nextCursorIter_inv q limit hnodup hlim q.length c h
    have h1 : pre.length + r.length = q.length := by
      have h2 := congrArg List.length hl
      rw [List.length_append, (sortDesc_perm q).length_eq] at h2
      omega
    have h2 : 0 < r.length := List.length_pos.2 hr
    have h3 : 1 * (q.length + 1) ≤ limit * (q.length + 1) :=
      Nat.mul_le_mul_right (q.length + 1) hlim
    omega

/-! ### Claim theorems -/

/-- C2: decoding the token produced by encoding an integer yields that
integer again, for every integer and every cipher satisfying the
authenticated-encryption interface the paginator relies on
(`decrypt(encrypt(m)) = m`). -/
theorem encode_decode_roundtrip (enc : Bool × List Nat → List Nat)
    (dec : List Nat → Option (Bool × List Nat))
    (hdec : ∀ m, dec (enc m) = some m) (i : Int) :
    decode_id dec (encode_id enc i) = Except.ok i := by
  unfold decode_id encode_id
  rw [hdec]
  show (match pyIntParse (pyStr i) with
    | none => Except.error CursorError.invalidCursor
    | some j => Except.ok j) = Except.ok i
  rw [pyIntParse_pyStr]

/-- Witness for C2: the round-trip at 0, 1 and the maximum safe 64-bit
value, under the concrete tag cipher. -/
theorem encode_decode_roundtrip_witness :
    decode_id tagDec (encode_id tagEnc 9223372036854775807) =
      Except.ok 9223372036854775807 ∧
    decode_id tagDec (encode_id tagEnc 0) = Except.ok 0 ∧
    decode_id tagDec (encode_id tagEnc 1) = Except.ok 1 ∧
    decode_id tagDec (encode_id tagEnc (-5)) = Except.ok (-5) :=
  ⟨encode_decode_roundtrip tagEnc tagDec tagDec_tagEnc 9223372036854775807,
    encode_decode_roundtrip tagEnc tagDec tagDec_tagEnc 0,
    encode_decode_roundtrip tagEnc tagDec tagDec_tagEnc 1,
    encode_decode_roundtrip tagEnc tagDec tagDec_tagEnc (-5)⟩

/-- C5: `decode_id` fails with `InvalidCursor` and never returns an
integer on any token the cipher refuses to authenticate — in particular,
under the authenticated-encryption interface (tokens outside the range of
`encrypt` fail to decrypt), on every modified token that is not a genuine
ciphertext; it also fails when decryption itself fails or when the
decrypted payload is not a valid integer literal, and an `ok` result can
only arise from a successfully authenticated payload parsing to exactly
that integer. -/
theorem decode_rejects_tampering (enc : Bool × List Nat → List Nat)
    (dec : List Nat → Option (Bool × List Nat)) (t : List Nat) :
    ((∀ u, (∀ m, enc m ≠ u) → dec u = none) →
      (∀ m, enc m ≠ t) →
      decode_id dec t = Except.error CursorError.invalidCursor) ∧
    (dec t = none →
      decode_id dec t = Except.error CursorError.invalidCursor) ∧
    (∀ s, dec t = some s → pyIntParse s = none →
      decode_id dec t = Except.error CursorError.invalidCursor) ∧
    (∀ i, decode_id dec t = Except.ok i →
      ∃ s, dec t = some s ∧ pyIntParse s = some i) := by
  refine ⟨?_, ?_, ?_, ?_⟩
  · intro hauth hmod
    unfold decode_id
    rw [hauth t hmod]
  · intro hnone
    unfold decode_id
    rw [hnone]
  · intro s hs hparse
    simp [decode_id, hs, hparse]
  · intro i hok
    cases hdec : dec t with
    | none => simp [decode_id, hdec] at hok
    | some s =>
      cases hparse : pyIntParse s with
      | none => simp [decode_id, hdec, hparse] at hok
      | some j =>
        simp [decode_id, hdec, hparse] at hok
        exact ⟨s, rfl, by rw [hparse, hok]⟩

/-- Witness for C5: the tag cipher rejects the modified token `[7]`
(which is not a genuine ciphertext), so decoding it fails with
`InvalidCursor`. -/
theorem decode_rejects_tampering_witness :
    decode_id tagDec [7] = Except.error CursorError.invalidCursor :=
  (decode_rejects_tampering tagEnc tagDec [7]).1
    (by
      intro u hu
      cases u with
      | nil => rfl
      | cons x r =>
        cases x with
        | zero => exact absurd rfl (hu (false, r))
        | succ x1 =>
          cases x1 with
          | zero => exact absurd rfl (hu (true, r))
          | succ x2 => rfl)
    (by
      intro m h
      obtain ⟨b, ds⟩ := m
      cases b <;> simp [tagEnc] at h)

/-- C6: whenever the total count under the base filter is below the page
size, `get_previous` returns exactly the same triple (items, previous
cursor, next cursor) as `get_first`, whatever the decoded cursor was. -/
theorem get_previous_short_circuit (q : List Int) (limit : Nat) (c : Int)
    (h : get_count q < limit) :
    get_previous q limit c = get_first q limit := by
  unfold get_previous
  rw [if_pos h]

/-- Witness for C6: with the 5-row dataset and page size 10,
`get_previous` on the cursor encoding 3 coincides with `get_first`. -/
theorem get_previous_short_circuit_witness :
    get_count [1, 2, 3, 4, 5] < 10 ∧
    get_previous [1, 2, 3, 4, 5] 10 3 = get_first [1, 2, 3, 4, 5] 10 :=
  ⟨by decide, get_previous_short_circuit [1, 2, 3, 4, 5] 10 3 (by decide)⟩

/-- C9: on a base filter matching zero rows, `get_first` returns the
empty page with both cursors absent — an ordinary result, not an error —
for every positive page size (the Page Request invariant `page_size > 0`;
at `page_size = 0` the source instead raises IndexError inside
`_set_next_cursor`, a path the `Option` model cannot represent). -/
theorem get_first_empty (limit : Nat) (hlim : 0 < limit) :
    get_first ([] : List Int) limit = ([], none, none) := by
  have h2 : set_next_cursor [] limit ([] : List Int) false = none := by
    unfold set_next_cursor
    rw [if_neg]
    intro h0
    simp at h0
    omega
  show ((sortDesc []).take limit, none,
    set_next_cursor [] limit ((sortDesc []).take limit) false) = ([], none, none)
  rw [show sortDesc ([] : List Int) = [] from rfl, List.take_nil, h2]

/-- Witness for C9: the empty base filter at page size 10. -/
theorem get_first_empty_witness :
    0 < 10 ∧ get_first ([] : List Int) 10 = ([], none, none) :=
  ⟨by decide, get_first_empty 10 (by decide)⟩

/-- C8 counterexample: `get_previous` on dataset `[1, 2, 3]` with page
size 2 and decoded cursor 1 is not short-circuited (count 3 ≥ 2) and
returns the items `[2, 3]` in ascending identifier order — not in the
paginator's canonical descending order. -/
theorem get_previous_not_descending :
    (get_previous [1, 2, 3] 2 1).1 = [2, 3] ∧
    ¬ List.Pairwise (fun a b : Int => b ≤ a) (get_previous [1, 2, 3] 2 1).1 := by
  constructor
  · decide
  · intro h
    have h2 : (get_previous [1, 2, 3] 2 1).1 = [2, 3] := by decide
    rw [h2] at h
    have := (List.pairwise_cons.1 h).1 3 (by simp)
    omega

/-- C8 amended: every non-short-circuited `get_previous` call returns its
items in ascending identifier order (the reverse of the canonical
descending order used by `get_first` and `get_next`); only the boundary
cursor computation accounts for the reversal, the item list itself is not
normalized. -/
theorem get_previous_items_ascending (q : List Int) (limit : Nat)
    (c : Int) (h : limit ≤ get_count q) :
    List.Pairwise (fun a b : Int => a ≤ b) (get_previous q limit c).1 := by
  unfold get_previous
  rw [if_neg (by omega)]
  show List.Pairwise (fun a b : Int => a ≤ b)
    ((sortAsc ((q.filter (fun x => decide (c < x))))).take limit)
  exact List.Pairwise.sublist (List.take_sublist _ _) (sortAsc_sorted _)

/-- Witness for C8's amended claim at the counterexample's input. -/
theorem get_previous_items_ascending_witness :
    2 ≤ get_count [1, 2, 3] ∧
    List.Pairwise (fun a b : Int => a ≤ b) (get_previous [1, 2, 3] 2 1).1 :=
  ⟨by decide, get_previous_items_ascending [1, 2, 3] 2 1 (by decide)⟩

/-- C3: starting from `get_first` and repeatedly following `next_cursor`
via `get_next`, the iteration reaches an absent next cursor (within
`query.length` steps), and the concatenation of the visited pages is
exactly the descending-sorted dataset — every row of the base filter
exactly once, no duplicates, no omissions. -/
theorem forward_traversal_exhausts (q : List Int) (limit : Nat)
    (hnodup : q.Nodup) (hlim : 1 ≤ limit) :
    (∃ k, nextCursorIter q limit k = none) ∧
    (chain q limit).flatten = sortDesc q ∧
    ((chain q limit).flatten).Perm q :=
  ⟨⟨q.length, nextCursorIter_terminates q limit hnodup hlim⟩,
    chain_flatten q limit hnodup hlim,
    by
      rw [chain_flatten q limit hnodup hlim]
      exact sortDesc_perm q⟩

/-- Witness for C3: the 25-row scenario — identifiers 1..25, page size
10, pages of sizes [10, 10, 5], cursor chain 16 then 6, the third page's
next cursor absent. -/
theorem forward_traversal_exhausts_witness :
    ds25.Nodup ∧ 1 ≤ 10 ∧
    ((∃ k, nextCursorIter ds25 10 k = none) ∧
      (chain ds25 10).flatten = sortDesc ds25 ∧
      ((chain ds25 10).flatten).Perm ds25) ∧
    (chain ds25 10).map List.length = [10, 10, 5] ∧
    nextCursorIter ds25 10 0 = some 16 ∧
    nextCursorIter ds25 10 1 = some 6 ∧
    nextCursorIter ds25 10 2 = none :=
  ⟨by decide, by decide,
    forward_traversal_exhausts ds25 10 (by decide) (by decide),
    by decide, by decide, by decide, by decide⟩

/-- The previous-cursor helper under explicit scrutinee values. -/
lemma set_previous_cursor_eq (query result : List Int) (is_reversed : Bool)
    (hres : result ≠ []) (fid f : Int)
    (hq : (sortDesc query).head? = some fid)
    (hf : (if is_reversed then result.getLast? else result.head?) = some f) :
    set_previous_cursor query result is_reversed =
      if fid ≠ f then some f else none := by
  unfold set_previous_cursor
  rw [if_pos (List.length_pos.2 hres), hq, hf]

/-- The next-cursor helper under explicit scrutinee values. -/
lemma set_next_cursor_eq (query : List Int) (limit : Nat)
    (result : List Int) (is_reversed : Bool)
    (hlen : result.length = limit) (lid l : Int)
    (hq : (sortAsc query).head? = some lid)
    (hf : (if is_reversed then result.head? else result.getLast?) = some l) :
    set_next_cursor query limit result is_reversed =
      if lid ≠ l then some l else none := by
  unfold set_next_cursor
  rw [if_pos hlen, hq, hf]

lemma page_edge_last_head (result : List Int) (hres : result ≠ [])
    (b : Bool) :
    ∃ f, (if b then result.getLast? else result.head?) = some f := by
  cases b
  · exact ⟨result.head hres, by simp [List.head?_eq_head hres]⟩
  · exact ⟨result.getLast hres, by simp [List.getLast?_eq_getLast result hres]⟩

lemma page_edge_head_last (result : List Int) (hres : result ≠ [])
    (b : Bool) :
    ∃ f, (if b then result.head? else result.getLast?) = some f := by
  cases b
  · exact ⟨result.getLast hres, by simp [List.getLast?_eq_getLast result hres]⟩
  · exact ⟨result.head hres, by simp [List.head?_eq_head hres]⟩

lemma sortDesc_head?_none_of_nil (query : List Int)
    (hq : (sortDesc query).head? = none) : query = [] := by
  have h0 : sortDesc query = [] := List.head?_eq_none_iff.1 hq
  exact List.perm_nil.1 ((h0 ▸ (sortDesc_perm query)).symm)

lemma sortAsc_head?_none_of_nil (query : List Int)
    (hq : (sortAsc query).head? = none) : query = [] := by
  have h0 : sortAsc query = [] := List.head?_eq_none_iff.1 hq
  exact List.perm_nil.1 ((h0 ▸ (sortAsc_perm query)).symm)

/-- C1 (amended): the boundary-cursor helpers compare the page edge
against the query's true extremes, but with those extremes the opposite
way round from the claim's words: `set_previous_cursor` yields the
encoded page-first element exactly when the page is non-empty and the
*largest* identifier matching the base filter (the first row under
descending order) differs from that element, and `set_next_cursor` yields
the encoded page-last element exactly when the page is exactly full and
the *smallest* identifier matching the base filter (the first row under
ascending order) differs from that element (each edge accounting for the
reversed flag). -/
theorem boundary_cursors_use_extremes (query result : List Int)
    (is_reversed : Bool) (limit : Nat) (v : Int) :
    (set_previous_cursor query result is_reversed = some v ↔
      result ≠ [] ∧
      (if is_reversed then result.getLast? else result.head?) = some v ∧
      ∃ m, (m ∈ query ∧ ∀ x ∈ query, x ≤ m) ∧ m ≠ v) ∧
    (set_next_cursor query limit result is_reversed = some v ↔
      result.length = limit ∧
      (if is_reversed then result.head? else result.getLast?) = some v ∧
      ∃ m, (m ∈ query ∧ ∀ x ∈ query, m ≤ x) ∧ m ≠ v) := by
  constructor
  · -- previous cursor
    by_cases hres : result = []
    · have hnone : set_previous_cursor query result is_reversed = none := by
        unfold set_previous_cursor
        rw [if_neg (by simp [hres])]
      rw [hnone]
      simp [hres]
    · obtain ⟨f, hf⟩ := page_edge_last_head result hres is_reversed
      cases hq : (sortDesc query).head? with
      | none =>
        have hqnil : query = [] := sortDesc_head?_none_of_nil query hq
        have hnone : set_previous_cursor query result is_reversed = none := by
          unfold set_previous_cursor
          rw [if_pos (List.length_pos.2 hres), hq, hf]
        rw [hnone]
        simp [hqnil]
      | some fid =>
        rw [set_previous_cursor_eq query result is_reversed hres fid f hq hf]
        have hfid := (head?_sortDesc_eq_some_iff query fid).1 hq
        constructor
        · intro h
          by_cases hne2 : fid ≠ f
          · rw [if_pos hne2] at h
            have hfv : f = v := by injection h
            subst hfv
            exact ⟨hres, hf, fid, hfid, hne2⟩
          · rw [if_neg hne2] at h
            cases h
        · rintro ⟨-, hfv, m, hm, hmv⟩
          have hfv2 : f = v := by
            rw [hf] at hfv
            injection hfv
          subst hfv2
          have hmfid : m = fid := le_antisymm (hfid.2 m hm.1) (hm.2 fid hfid.1)
          rw [if_pos (hmfid ▸ hmv)]
  · -- next cursor
    by_cases hlen : result.length = limit
    · cases hq : (sortAsc query).head? with
      | none =>
        have hqnil : query = [] := sortAsc_head?_none_of_nil query hq
        have hnone : set_next_cursor query limit result is_reversed = none := by
          unfold set_next_cursor
          rw [if_pos hlen, hq]
        rw [hnone]
        simp [hqnil]
      | some lid =>
        by_cases hres : result = []
        · have hsc : (if is_reversed then result.head? else result.getLast?) =
              none := by
            cases is_reversed <;> simp [hres]
          have hnone : set_next_cursor query limit result is_reversed = none := by
            unfold set_next_cursor
            rw [if_pos hlen, hq, hsc]
          rw [hnone, hsc]
          simp
        · obtain ⟨l, hl⟩ := page_edge_head_last result hres is_reversed
          rw [set_next_cursor_eq query limit result is_reversed hlen lid l hq hl]
          have hlid := (head?_sortAsc_eq_some_iff query lid).1 hq
          constructor
          · intro h
            by_cases hne2 : lid ≠ l
            · rw [if_pos hne2] at h
              have hlv : l = v := by injection h
              subst hlv
              exact ⟨hlen, hl, lid, hlid, hne2⟩
            · rw [if_neg hne2] at h
              cases h
          · rintro ⟨-, hlv, m, hm, hmv⟩
            have hlv2 : l = v := by
              rw [hl] at hlv
              injection hlv
            subst hlv2
            have hmlid : m = lid := le_antisymm (hm.2 lid hlid.1) (hlid.2 m hm.1)
            rw [if_pos (hmlid ▸ hmv)]
    · have hnone : set_next_cursor query limit result is_reversed = none := by
        unfold set_next_cursor
        rw [if_neg hlen]
      rw [hnone]
      simp [hlen]

/-- Witness for C1's amended claim: on query `[1, 2, 3]` with page
`[2, 1]`, the previous cursor is the encoded page-first element 2
because the query's largest identifier 3 differs from it. -/
theorem boundary_cursors_use_extremes_witness :
    set_previous_cursor [1, 2, 3] [2, 1] false = some 2 ∧
    ∃ m, (m ∈ [(1 : Int), 2, 3] ∧ ∀ x ∈ [(1 : Int), 2, 3], x ≤ m) ∧ m ≠ 2 :=
  ⟨by decide,
    ((boundary_cursors_use_extremes [1, 2, 3] [2, 1] false 0 2).1.mp
      (by decide)).2.2⟩

/-- C1 counterexample: on the page produced by
`get_next([1, 2, 3], page_size 2, cursor 10)` — items `[3, 2]` — the code
leaves `previous_cursor` absent (the query's largest identifier 3 equals
the page's first element), while the computation described by the claim
(probing the smallest identifier, 1) would set it to the encoded first
element 3; the claim's description therefore disagrees with the code. -/
theorem boundary_cursors_claim_counterexample :
    (get_next [1, 2, 3] 2 10).1 = [3, 2] ∧
    (get_next [1, 2, 3] 2 10).2.1 = none ∧
    set_previous_cursor_claim [1, 2, 3] (get_next [1, 2, 3] 2 10).1 false =
      some 3 ∧
    set_previous_cursor [1, 2, 3] (get_next [1, 2, 3] 2 10).1 false ≠
      set_previous_cursor_claim [1, 2, 3] (get_next [1, 2, 3] 2 10).1 false := by
  decide

lemma mongoLimit_length_le (l : List Nat) (n : Nat) (h : 0 < n) :
    (mongoLimit l n).length ≤ n := by
  unfold mongoLimit
  rw [if_neg (by omega)]
  simp [List.length_take]

lemma mongo_fetch_results (coll : List Nat) (q1 : MongoQuery)
    (limit : Nat) :
    (mongo_fetch coll q1 limit).results =
      mongoLimit ((sortDescN coll).filter (fun d => mongoMatches q1 d))
        limit := by
  simp only [mongo_fetch]
  split <;> rfl

lemma mongo_fetch_query (coll : List Nat) (q1 : MongoQuery) (limit : Nat) :
    (mongo_fetch coll q1 limit).query = q1 := by
  simp only [mongo_fetch]
  split <;> rfl

lemma get_page_results_length (coll : List Nat) (mq : MongoQuery)
    (limit : Nat) (cur : Option Nat) (fwd : Bool) (hlim : 0 < limit) :
    (get_page coll mq limit cur fwd).results.length ≤ limit := by
  unfold get_page
  rw [mongo_fetch_results]
  exact mongoLimit_length_le _ _ hlim

/-- C7: every page request returns at most `page_size` items — all three
relational operations unconditionally, and the document-store `get_page`
for every positive page size (Mongo's `limit(0)` means "no limit"). -/
theorem page_size_bound (q : List Int) (limit : Nat) (c : Int)
    (coll : List Nat) (mq : MongoQuery) (cur : Option Nat) (fwd : Bool) :
    (get_first q limit).1.length ≤ limit ∧
    (get_next q limit c).1.length ≤ limit ∧
    (get_previous q limit c).1.length ≤ limit ∧
    (0 < limit → (get_page coll mq limit cur fwd).results.length ≤ limit) := by
  refine ⟨?_, ?_, ?_, ?_⟩
  · show ((sortDesc q).take limit).length ≤ limit
    simp [List.length_take]
  · show ((sortDesc (q.filter (fun x => decide (x < c)))).take limit).length ≤
      limit
    simp [List.length_take]
  · unfold get_previous
    split_ifs with h
    · show ((sortDesc q).take limit).length ≤ limit
      simp [List.length_take]
    · show ((sortAsc (q.filter (fun x => decide (c < x)))).take limit).length ≤
        limit
      simp [List.length_take]
  · intro hlim
    exact get_page_results_length coll mq limit cur fwd hlim

/-- Witness for C7 at a concrete page request for each operation. -/
theorem page_size_bound_witness :
    (get_first [5, 9] 1).1.length ≤ 1 ∧
    (get_next [5, 9] 1 7).1.length ≤ 1 ∧
    (get_previous [5, 9] 1 7).1.length ≤ 1 ∧
    (get_page [4, 8] (MongoQuery.mk none (fun _ => true)) 1 none true).results.length ≤ 1 :=
  ⟨(page_size_bound [5, 9] 1 7 [4, 8] (MongoQuery.mk none (fun _ => true))
      none true).1,
    (page_size_bound [5, 9] 1 7 [4, 8] (MongoQuery.mk none (fun _ => true))
      none true).2.1,
    (page_size_bound [5, 9] 1 7 [4, 8] (MongoQuery.mk none (fun _ => true))
      none true).2.2.1,
    (page_size_bound [5, 9] 1 7 [4, 8] (MongoQuery.mk none (fun _ => true))
      none true).2.2.2 (by decide)⟩

/-- C10: whenever a cursor is present, `get_page` writes the `_id` bound
(`$lt` for forward, `$gt` for backward) into the caller-supplied filter
mapping — the constructor stored the caller's mapping itself, so after
the call that mapping carries the added `_id` constraint (whatever value
the key held before) and its other constraints unchanged; nothing
restores it. -/
theorem mongo_query_mutated (coll : List Nat) (mq : MongoQuery)
    (limit : Nat) (c : Nat) (forward : Bool) :
    (get_page coll mq limit (some c) forward).query.idBound =
      some (if forward then IdBound.lt c else IdBound.gt c) ∧
    (get_page coll mq limit (some c) forward).query.base = mq.base := by
  unfold get_page
  rw [mongo_fetch_query]
  exact ⟨rfl, rfl⟩

/-- C4 (amended): for every positive page size, `get_page` sets
`next_cursor` only when exactly `page_size` items were returned and some
document of the *entire collection* (the probe ignores the filter
mapping) has an identifier strictly below the last returned item, and
sets `previous_cursor` only when some document of the entire collection
has an identifier strictly above the first returned item (the probes use
fixed directions, matching the fixed descending sort). -/
theorem mongo_cursor_probes (coll : List Nat) (mq : MongoQuery)
    (limit : Nat) (cursor : Option Nat) (forward : Bool) (hlim : 0 < limit) :
    ((get_page coll mq limit cursor forward).next_cursor.isSome →
      (get_page coll mq limit cursor forward).results.length = limit ∧
      ∃ t, (get_page coll mq limit cursor forward).results.getLast? = some t ∧
        (get_page coll mq limit cursor forward).next_cursor = some t ∧
        ∃ d ∈ coll, d < t) ∧
    ((get_page coll mq limit cursor forward).previous_cursor.isSome →
      ∃ f, (get_page coll mq limit cursor forward).results.head? = some f ∧
        (get_page coll mq limit cursor forward).previous_cursor = some f ∧
        ∃ d ∈ coll, f < d) := by
  unfold get_page
  set q1 := apply_cursor mq cursor forward with hq1
  set res := mongoLimit ((sortDescN coll).filter (fun d => mongoMatches q1 d))
    limit with hresdef
  by_cases hres : res = []
  · have hpage : mongo_fetch coll q1 limit = MongoPage.mk res q1 none none := by
      simp only [mongo_fetch]
      rw [← hresdef, dif_pos hres]
    rw [hpage]
    constructor
    · intro hsome
      simp at hsome
    · intro hsome
      simp at hsome
  · have hpage : mongo_fetch coll q1 limit =
        MongoPage.mk res q1
          (if has_previous coll (res.head hres) then some (res.head hres)
           else none)
          (if res.length < limit then none
           else if has_next coll (res.getLast hres) then
             some (res.getLast hres)
           else none) := by
      simp only [mongo_fetch]
      rw [← hresdef, dif_neg hres]
    rw [hpage]
    have hlen : res.length ≤ limit := mongoLimit_length_le _ _ hlim
    constructor
    · intro hsome
      dsimp only at hsome ⊢
      split_ifs at hsome with h1 h2
      · simp at hsome
      · refine ⟨by omega, _, List.getLast?_eq_getLast _ hres, ?_, ?_⟩
        · rw [if_neg h1, if_pos h2]
        · unfold has_next at h2
          obtain ⟨d, hd, hp⟩ := List.find?_isSome.1 h2
          exact ⟨d, hd, of_decide_eq_true hp⟩
      · simp at hsome
    · intro hsome
      dsimp only at hsome ⊢
      split_ifs at hsome with h1
      · refine ⟨_, List.head?_eq_head hres, ?_, ?_⟩
        · rw [if_pos h1]
        · unfold has_previous at h1
          obtain ⟨d, hd, hp⟩ := List.find?_isSome.1 h1
          exact ⟨d, hd, of_decide_eq_true hp⟩
      · simp at hsome

/-- Witness for C4's amended claim: on collection `[3, 1]` with a
trivial filter and page size 1, the returned page is `[3]` and the next
cursor is set because document 1 lies below the last item. -/
theorem mongo_cursor_probes_witness :
    ∃ t, (get_page [3, 1] (MongoQuery.mk none (fun _ => true)) 1 none
        true).results.getLast? = some t ∧
      (get_page [3, 1] (MongoQuery.mk none (fun _ => true)) 1 none
        true).next_cursor = some t ∧
      ∃ d ∈ [3, 1], d < t :=
  ((mongo_cursor_probes [3, 1] (MongoQuery.mk none (fun _ => true)) 1 none
      true (by decide)).1 (by decide)).2

/-- C4 counterexample: collection `[1, 2]`, filter matching only the
document 2, page size 1, no cursor, forward.  The page is `[2]` and the
code sets `next_cursor = some 2` because the *unfiltered* probe sees
document 1; yet no document of the filtered result set lies strictly
beyond the last returned item, so the claim as stated ("a row of the
filtered result set exists strictly beyond") is violated. -/
theorem mongo_cursor_probes_counterexample :
    (get_page [1, 2] (MongoQuery.mk none (fun d => decide (d = 2))) 1 none
      true).results = [2] ∧
    (get_page [1, 2] (MongoQuery.mk none (fun d => decide (d = 2))) 1 none
      true).next_cursor = some 2 ∧
    (∀ d ∈ [1, 2],
      mongoMatches (MongoQuery.mk none (fun d => decide (d = 2))) d = true →
        ¬ d < 2) := by
  decide
